import Mathlib

/-!
Shallow embedding of the `ai-sdk-mistral-fim` provider core
(`src/mistral-fim-language-model.ts` and `src/mistral-fim-options.ts`):
the request builder (`getArgs`), the synchronous response normalizer
(the parsing tail of `doGenerate`), the streaming state machine
(the `TransformStream` inside `doStream`), and the shared extraction
helpers (`extractTextContent`, `extractUserPromptContent`).

JavaScript `null`/`undefined` are both modelled as `Option.none`
(the code only ever tests them with `!= null` / truthiness).
JSON numbers are modelled as `Int` (the token counters and sampling
parameters are never inspected arithmetically by this core, only
passed through).
-/

namespace MistralFim

/-! ### Wire content union (`mistralContentSchema`)

`string | Array<text | image_url | reference | thinking> | null | undefined`.
The payloads of the non-text variants are carried but never consumed. -/

inductive MistralContentPart where
  | text (text : String)
  | image_url (url : String)
  | reference (referenceIds : List Int)
  | thinking (parts : List String)
deriving DecidableEq

inductive MistralContent where
  | str (s : String)
  | parts (l : List MistralContentPart)
deriving DecidableEq

/-- Plain-order string concatenation, the embedding of `Array.join('')`. -/
def joinStrings : List String → String
  | [] => ""
  | s :: rest => s ++ joinStrings rest

/-- The collection loop inside `extractTextContent`: the `text` payloads
of the `text` parts, in order (`thinking`, `image_url` and `reference`
parts are skipped). -/
def textParts (content : List MistralContentPart) : List String :=
  content.filterMap fun chunk =>
    match chunk with
    | .text t => some t
    | .image_url _ => none
    | .reference _ => none
    | .thinking _ => none

/-- `extractTextContent` from `mistral-fim-language-model.ts`:
flattens the content union into an optional string.  A plain string is
returned as-is; `null`/`undefined` gives `none`; a part list collects the
`text` of every `text` part (the other discriminants are skipped) and
joins them, giving `none` when no `text` part was collected. -/
def extractTextContent : Option MistralContent → Option String
  | some (.str content) => some content
  | none => none
  | some (.parts content) =>
    let textContent : List String := textParts content
    if textContent.length > 0 then some (joinStrings textContent) else none

/-! ### Generic prompt messages (`LanguageModelV2Prompt`)

The builder only looks at each message's `role` string and at the `type`
discriminant / `text` payload of its content parts, so non-text parts are
modelled by their tag alone. -/

inductive PromptPart where
  | text (text : String)
  | other (tag : String)
deriving DecidableEq

structure PromptMessage where
  role : String
  content : List PromptPart
deriving DecidableEq

/-- The inner loop of `extractUserPromptContent`: first `text` part of a
content list, skipping parts of any other type. -/
def firstTextPart : List PromptPart → Option String
  | [] => none
  | .text t :: _ => some t
  | .other _ :: rest => firstTextPart rest

/-- `extractUserPromptContent` from `mistral-fim-language-model.ts`:
walks the messages in order, skips non-`user` messages, and returns the
text of the first `text` part of the first user message that has one;
a user message without any `text` part falls through to later messages. -/
def extractUserPromptContent : List PromptMessage → Option String
  | [] => none
  | message :: rest =>
    if message.role = "user" then
      match firstTextPart message.content with
      | some t => some t
      | none => extractUserPromptContent rest
    else
      extractUserPromptContent rest

/-! ### Provider options (`mistral-fim-options.ts`) and the call description -/

inductive StopValue where
  | str (s : String)
  | list (l : List String)
deriving DecidableEq

/-- `mistralFimProviderOptions`: the three recognized provider options,
each optional. -/
structure MistralFimProviderOptions where
  stop : Option StopValue := none
  suffix : Option String := none
  min_token : Option Int := none
deriving DecidableEq

/-- The slice of `LanguageModelV2CallOptions` consumed by `getArgs`.
`providerOptions` is the already-validated option bag
(`parseProviderOptions` result; `none` stands for an absent bag, which
the code replaces by `{}` via `?? {}`). -/
structure CallOptions where
  prompt : List PromptMessage
  maxOutputTokens : Option Int := none
  temperature : Option Int := none
  topP : Option Int := none
  topK : Option Int := none
  frequencyPenalty : Option Int := none
  presencePenalty : Option Int := none
  stopSequences : Option (List String) := none
  responseFormat : Option String := none
  seed : Option Int := none
  providerOptions : Option MistralFimProviderOptions := none
  tools : Option (List String) := none
  toolChoice : Option String := none
deriving DecidableEq

inductive CallWarning where
  | unsupportedSetting (setting : String)
deriving DecidableEq

/-- The assembled wire request (`args` object in `getArgs`). -/
structure FimArgs where
  model : String
  temperature : Option Int
  top_p : Option Int
  max_tokens : Option Int
  stop : Option StopValue
  random_seed : Option Int
  prompt : String
  suffix : Option String
  min_tokens : Option Int
deriving DecidableEq

structure GetArgsResult where
  args : FimArgs
  warnings : List CallWarning
deriving DecidableEq

/-- The warning-accumulation block of `getArgs` (lines 81–128), in source
order: one unsupported-setting warning per non-null generic setting the
FIM wire format cannot express. -/
def fimWarnings (o : CallOptions) : List CallWarning :=
  (if o.topK.isSome then [.unsupportedSetting "topK"] else []) ++
  (if o.frequencyPenalty.isSome then [.unsupportedSetting "frequencyPenalty"] else []) ++
  (if o.presencePenalty.isSome then [.unsupportedSetting "presencePenalty"] else []) ++
  (if o.stopSequences.isSome then [.unsupportedSetting "stopSequences"] else []) ++
  (if o.responseFormat.isSome then [.unsupportedSetting "responseFormat"] else []) ++
  (if o.tools.isSome then [.unsupportedSetting "tools"] else []) ++
  (if o.toolChoice.isSome then [.unsupportedSetting "toolChoice"] else [])

/-- The `args` assembly of `getArgs` (lines 135–145): passthrough of
model id, sampling parameters and seed under wire field names, plus the
stop/suffix/min-token values from the parsed option bag
(`o.providerOptions.getD {}` embeds the `?? {}` fallback). -/
def fimArgsFor (modelId : String) (o : CallOptions) (pfx : String) : FimArgs :=
  let options := o.providerOptions.getD {}
  { model := modelId
    temperature := o.temperature
    top_p := o.topP
    max_tokens := o.maxOutputTokens
    stop := options.stop
    random_seed := o.seed
    prompt := pfx
    suffix := options.suffix
    min_tokens := options.min_token }

/-- `getArgs` from `mistral-fim-language-model.ts`: accumulates the
unsupported-setting warnings, extracts the prompt text, throws
`Empty prompt` when the extracted text is `undefined` or `''` (the
`!prefix` truthiness test), and otherwise assembles the wire request. -/
def getArgs (modelId : String) (o : CallOptions) : Except String GetArgsResult :=
  match extractUserPromptContent o.prompt with
  | none => .error "Empty prompt"
  | some pfx =>
    if pfx = "" then .error "Empty prompt"
    else .ok { args := fimArgsFor modelId o pfx, warnings := fimWarnings o }

/-! ### Finish reasons and response metadata

`mapMistralFinishReason` and `getResponseMetadata` live in sibling modules
(`map-mistral-finish-reason.ts`, `get-response-metadata.ts`) that are not
part of the provided sources; they are modelled from the specification. -/

inductive FinishReason where
  | stop
  | length
  | error
  | unknown
deriving DecidableEq

/-- Modelled from the spec: `map-mistral-finish-reason.ts` is not among the
provided sources; §6 defines the mapping as `"stop"` → stop,
`"length"`/`"model_length"` → length, `"error"` → error, anything else
(including null/absent) → unknown. -/
def mapMistralFinishReason : Option String → FinishReason
  | some "stop" => .stop
  | some "length" => .length
  | some "model_length" => .length
  | some "error" => .error
  | _ => .unknown

structure ResponseMetadata where
  id : Option String
  timestamp : Option Int
  modelId : Option String
deriving DecidableEq

/-- Modelled from the spec: `get-response-metadata.ts` is not among the
provided sources; §4.2 describes it as passing through the optional id,
the created timestamp converted from epoch seconds to an absolute
timestamp (milliseconds), and the model name. -/
def getResponseMetadata (id : Option String) (created : Option Int)
    (model : Option String) : ResponseMetadata :=
  { id := id, timestamp := created.map (· * 1000), modelId := model }

/-! ### Wire response envelopes (`mistralChatResponseSchema`,
`mistralChatChunkSchema`) -/

structure MistralUsage where
  prompt_tokens : Int
  completion_tokens : Int
  total_tokens : Int
deriving DecidableEq

structure ToolCall where
  id : String
  functionName : String
  functionArguments : String
deriving DecidableEq

structure ResponseMessage where
  content : Option MistralContent
  tool_calls : Option (List ToolCall) := none
deriving DecidableEq

structure ResponseChoice where
  message : ResponseMessage
  index : Int := 0
  finish_reason : Option String := none
deriving DecidableEq

structure MistralResponse where
  id : Option String := none
  created : Option Int := none
  model : Option String := none
  choices : List ResponseChoice
  usage : MistralUsage
deriving DecidableEq

structure ChunkDelta where
  content : Option MistralContent
  tool_calls : Option (List ToolCall) := none
deriving DecidableEq

structure ChunkChoice where
  delta : ChunkDelta
  finish_reason : Option String := none
  index : Int := 0
deriving DecidableEq

structure MistralChunk where
  id : Option String := none
  created : Option Int := none
  model : Option String := none
  choices : List ChunkChoice
  usage : Option MistralUsage := none
deriving DecidableEq

/-! ### Normalized result shapes -/

inductive ContentItem where
  | text (text : String)
deriving DecidableEq

structure NormalizedUsage where
  inputTokens : Option Int := none
  outputTokens : Option Int := none
  totalTokens : Option Int := none
deriving DecidableEq

structure GenerateResult where
  content : List ContentItem
  finishReason : FinishReason
  usage : NormalizedUsage
deriving DecidableEq

/-- The content-assembly block of `doGenerate` (lines 175–193): when the
choice's message content is an array, push one text item per `text` part
with non-empty text, in order; otherwise flatten with
`extractTextContent` and push a single item when the result is non-null
and non-empty. -/
def doGenerateContent (content : Option MistralContent) : List ContentItem :=
  match content with
  | some (.parts l) =>
    l.filterMap fun part =>
      match part with
      | .text t => if t.length > 0 then some (.text t) else none
      | _ => none
  | c =>
    match extractTextContent c with
    | some text => if text.length > 0 then [.text text] else []
    | none => []

/-- The normalization tail of `doGenerate` (after the HTTP call): the
unguarded `response.choices[0]` access is modelled by `none` when the
choices list is empty (in JavaScript the subsequent `choice.message`
dereference throws), and otherwise the choice is normalized into
content, mapped finish reason and passed-through usage. -/
def parseResponse (response : MistralResponse) : Option GenerateResult :=
  match response.choices with
  | [] => none
  | choice :: _ =>
    some {
      content := doGenerateContent choice.message.content
      finishReason := mapMistralFinishReason choice.finish_reason
      usage := {
        inputTokens := some response.usage.prompt_tokens
        outputTokens := some response.usage.completion_tokens
        totalTokens := some response.usage.total_tokens } }

/-- `doGenerate` as a function of the call options and the wire response
the transport would deliver: build the request (which may fail before any
network interaction), then normalize the response. -/
def doGenerateModel (modelId : String) (o : CallOptions)
    (response : MistralResponse) : Except String (Option GenerateResult) :=
  match getArgs modelId o with
  | .error e => .error e
  | .ok _ => .ok (parseResponse response)

/-! ### Streaming state machine (`doStream`'s `TransformStream`) -/

/-- One parsed SSE transport event (`ParseResult` from the SDK): either a
successfully parsed chunk or a parse failure, each carrying the raw
payload. -/
inductive ChunkParseResult where
  | success (value : MistralChunk) (rawValue : String)
  | failure (error : String) (rawValue : String)
deriving DecidableEq

def rawOf : ChunkParseResult → String
  | .success _ r => r
  | .failure _ r => r

inductive StreamPart where
  | streamStart (warnings : List CallWarning)
  | raw (rawValue : String)
  | responseMetadata (metadata : ResponseMetadata)
  | textStart (id : String)
  | textDelta (id : String) (delta : String)
  | textEnd (id : String)
  | error (error : String)
  | finish (finishReason : FinishReason) (usage : NormalizedUsage)
deriving DecidableEq

/-- The four variables closed over by the transform. -/
structure StreamState where
  isFirstChunk : Bool
  activeText : Bool
  finishReason : FinishReason
  usage : NormalizedUsage
deriving DecidableEq

def initialStreamState : StreamState :=
  { isFirstChunk := true
    activeText := false
    finishReason := .unknown
    usage := { inputTokens := none, outputTokens := none, totalTokens := none } }

/-- First-chunk block (lines 264–271): on the first successfully parsed
chunk, emit a response-metadata event and clear `isFirstChunk`. -/
def applyMetadata (st : StreamState) (value : MistralChunk) :
    StreamState × List StreamPart :=
  if st.isFirstChunk then
    ({ st with isFirstChunk := false },
     [.responseMetadata (getResponseMetadata value.id value.created value.model)])
  else
    (st, [])

/-- Usage block (lines 273–277): a chunk carrying a usage record
overwrites all three tracked counters. -/
def applyUsage (st : StreamState) (value : MistralChunk) : StreamState :=
  match value.usage with
  | some u =>
    { st with usage := {
        inputTokens := some u.prompt_tokens
        outputTokens := some u.completion_tokens
        totalTokens := some u.total_tokens } }
  | none => st

/-- Text block (lines 282–295): when the extracted delta text is non-null
and non-empty, open the single `"0"` span if needed and emit the delta. -/
def applyText (st : StreamState) (textContent : Option String) :
    StreamState × List StreamPart :=
  match textContent with
  | some t =>
    if t.length > 0 then
      if st.activeText then
        (st, [.textDelta "0" t])
      else
        ({ st with activeText := true }, [.textStart "0", .textDelta "0" t])
    else
      (st, [])
  | none => (st, [])

/-- Finish-reason block (lines 297–299). -/
def applyFinishReason (st : StreamState) (fr : Option String) : StreamState :=
  match fr with
  | some r => { st with finishReason := mapMistralFinishReason (some r) }
  | none => st

/-- The `transform` callback for one transport event: raw passthrough
first, then the error path for parse failures, then metadata, usage, the
unguarded `value.choices[0]` access (modelled by `none` on an empty
choices list — in JavaScript `choice.delta` throws there, erroring the
stream), text extraction and finish-reason tracking. -/
def transformChunk (includeRawChunks : Bool) (st : StreamState)
    (chunk : ChunkParseResult) : Option (StreamState × List StreamPart) :=
  let rawEvents : List StreamPart :=
    if includeRawChunks then [.raw (rawOf chunk)] else []
  match chunk with
  | .failure e _ => some (st, rawEvents ++ [.error e])
  | .success value _ =>
    let m := applyMetadata st value
    let st2 := applyUsage m.1 value
    match value.choices with
    | [] => none
    | choice :: _ =>
      let t := applyText st2 (extractTextContent choice.delta.content)
      let st4 := applyFinishReason t.1 choice.finish_reason
      some (st4, rawEvents ++ m.2 ++ t.2)

/-- Fold `transformChunk` over the transport events, accumulating the
emitted events in order; `none` when some chunk made the transform throw. -/
def processChunks (includeRawChunks : Bool) (st : StreamState) :
    List ChunkParseResult → Option (StreamState × List StreamPart)
  | [] => some (st, [])
  | c :: cs =>
    match transformChunk includeRawChunks st c with
    | none => none
    | some (st1, evs1) =>
      match processChunks includeRawChunks st1 cs with
      | none => none
      | some (st2, evs2) => some (st2, evs1 ++ evs2)

/-- The `flush` callback: close the open text span if any, then emit the
single terminating finish event with the tracked reason and usage. -/
def flushEvents (st : StreamState) : List StreamPart :=
  (if st.activeText then [.textEnd "0"] else []) ++
  [.finish st.finishReason st.usage]

/-- The full normalized event sequence `doStream` produces for a given
transport event sequence: the `start` callback's stream-start event
(carrying the builder's warnings), then the per-chunk transform output,
then the flush output. -/
def doStreamEvents (includeRawChunks : Bool) (warnings : List CallWarning)
    (chunks : List ChunkParseResult) : Option (List StreamPart) :=
  match processChunks includeRawChunks initialStreamState chunks with
  | none => none
  | some (st, evs) => some (.streamStart warnings :: (evs ++ flushEvents st))

/-! ### Derived observations used to state the claims -/

/-- A transport event the transform survives: parse failures never reach
the `choices[0]` access, and successfully parsed chunks must have a
non-empty choices list. -/
def goodChunk : ChunkParseResult → Bool
  | .failure _ _ => true
  | .success v _ => !v.choices.isEmpty

/-- A successfully parsed delta chunk (with the delta actually present,
i.e. a non-empty choices list). -/
def successWithChoice : ChunkParseResult → Bool
  | .failure _ _ => false
  | .success v _ => !v.choices.isEmpty

/-- The delta text the streaming path extracts from one transport event
(`""` for parse failures, chunks without choices, and empty or absent
content). -/
def extractedText : ChunkParseResult → String
  | .failure _ _ => ""
  | .success v _ =>
    match v.choices with
    | [] => ""
    | choice :: _ => (extractTextContent choice.delta.content).getD ""

/-- Concatenation of the extracted texts of a chunk sequence. -/
def concatTexts (chunks : List ChunkParseResult) : String :=
  joinStrings (chunks.map extractedText)

/-- The non-empty extracted texts, i.e. the payloads of the text-delta
events the stream will emit. -/
def deltaTexts (chunks : List ChunkParseResult) : List String :=
  (chunks.map extractedText).filter (fun t => !(t == ""))

def usageOf : ChunkParseResult → Option MistralUsage
  | .failure _ _ => none
  | .success v _ => v.usage

/-- The last usage record carried by any chunk of the sequence. -/
def lastUsage : List ChunkParseResult → Option MistralUsage
  | [] => none
  | c :: cs =>
    match lastUsage cs with
    | some u => some u
    | none => usageOf c

def toNormalizedUsage (u : MistralUsage) : NormalizedUsage :=
  { inputTokens := some u.prompt_tokens
    outputTokens := some u.completion_tokens
    totalTokens := some u.total_tokens }

/-- The usage the finish event reports given the chunks seen. -/
def finalUsage (chunks : List ChunkParseResult) : NormalizedUsage :=
  match lastUsage chunks with
  | some u => toNormalizedUsage u
  | none => { inputTokens := none, outputTokens := none, totalTokens := none }

def isTextOrFinish : StreamPart → Bool
  | .textStart _ => true
  | .textDelta _ _ => true
  | .textEnd _ => true
  | .finish _ _ => true
  | _ => false

def isFinishPart : StreamPart → Bool
  | .finish _ _ => true
  | _ => false

/-- The text events a run of the transform emits, as a function of the
span-open flag at entry and the non-empty delta texts it sees: a
text-start for span `"0"` when the span is not yet open and at least one
delta arrives, then one text-delta per non-empty text. -/
def spanned (active : Bool) (ds : List String) : List StreamPart :=
  (if active || ds.isEmpty then [] else [.textStart "0"]) ++
  ds.map (.textDelta "0")

/-- Whether some message of the prompt is a user message containing a
content part of type `text`. -/
def hasUserTextPart (p : List PromptMessage) : Bool :=
  p.any fun m =>
    m.role == "user" && m.content.any fun part =>
      match part with
      | .text _ => true
      | .other _ => false

/-- The text the builder actually uses: the first `text` part of the
earliest user message containing one. -/
def firstUserText (p : List PromptMessage) : Option String :=
  (p.filterMap fun m =>
    if m.role = "user" then firstTextPart m.content else none).head?

/-- The claim's reading of prompt extraction: the first `text` part
inside the first message with role `user` (no fallthrough to later user
messages). -/
def specFirstUserText (p : List PromptMessage) : Option String :=
  (p.find? fun m => m.role == "user").bind fun m => firstTextPart m.content

/-- Concatenated text of a normalized content list. -/
def concatContent (items : List ContentItem) : String :=
  joinStrings (items.map fun item => match item with | .text t => t)

/-- The text the streaming path forwards as a delta for one content-union
value (`""` when nothing would be emitted), per `doStream` lines
282–295. -/
def streamDeltaText (c : Option MistralContent) : String :=
  match extractTextContent c with
  | some t => if t.length > 0 then t else ""
  | none => ""

/-! ### Helper lemmas -/

lemma string_length_pos_iff (s : String) : 0 < s.length ↔ s ≠ "" := by
  cases s with
  | mk data =>
    simp [String.length, String.ext_iff]
    exact List.length_pos

lemma string_append_eq_empty_iff (s t : String) :
    s ++ t = "" ↔ s = "" ∧ t = "" := by
  simp [String.ext_iff, String.data_append]

lemma joinStrings_filter_ne (ts : List String) :
    joinStrings (ts.filter (fun t => !(t == ""))) = joinStrings ts := by
  induction ts with
  | nil => rfl
  | cons t rest ih =>
    by_cases h : t = ""
    · subst h
      simpa [List.filter_cons, joinStrings, String.empty_append] using ih
    · simp [List.filter_cons, h, joinStrings, ih]

lemma joinStrings_eq_empty_iff (ts : List String) :
    joinStrings ts = "" ↔ ∀ t ∈ ts, t = "" := by
  induction ts with
  | nil => simp [joinStrings]
  | cons t rest ih =>
    simp [joinStrings, string_append_eq_empty_iff, ih]

lemma firstTextPart_eq_none_of_no_text (content : List PromptPart)
    (h : (content.any fun part =>
      match part with | .text _ => true | .other _ => false) = false) :
    firstTextPart content = none := by
  induction content with
  | nil => rfl
  | cons part rest ih =>
    cases part with
    | text t => simp at h
    | other tag =>
      simp only [List.any_cons, Bool.or_eq_false_iff] at h
      exact ih h.2

lemma extractUserPromptContent_eq_none_of_no_user_text
    (p : List PromptMessage) (h : hasUserTextPart p = false) :
    extractUserPromptContent p = none := by
  induction p with
  | nil => rfl
  | cons m rest ih =>
    simp only [hasUserTextPart, List.any_cons, Bool.or_eq_false_iff,
      Bool.and_eq_false_iff] at h
    obtain ⟨hm, hrest⟩ := h
    have hrest' : hasUserTextPart rest = false := by
      simpa [hasUserTextPart] using hrest
    unfold extractUserPromptContent
    by_cases hrole : m.role = "user"
    · rcases hm with hm | hm
      · simp [hrole] at hm
      · rw [firstTextPart_eq_none_of_no_text m.content hm]
        simp [hrole, ih hrest']
    · simp [hrole, ih hrest']

lemma extractUserPromptContent_eq_firstUserText (p : List PromptMessage) :
    extractUserPromptContent p = firstUserText p := by
  induction p with
  | nil => rfl
  | cons m rest ih =>
    unfold extractUserPromptContent firstUserText
    by_cases hrole : m.role = "user"
    · cases hftp : firstTextPart m.content with
      | some t => simp [hrole, List.filterMap_cons, hftp]
      | none => simpa [hrole, List.filterMap_cons, hftp, firstUserText] using ih
    · simpa [hrole, List.filterMap_cons, firstUserText] using ih

lemma applyMetadata_fst_activeText (st : StreamState) (v : MistralChunk) :
    ((applyMetadata st v).1).activeText = st.activeText := by
  unfold applyMetadata
  split <;> rfl

lemma applyMetadata_fst_usage (st : StreamState) (v : MistralChunk) :
    ((applyMetadata st v).1).usage = st.usage := by
  unfold applyMetadata
  split <;> rfl

lemma applyMetadata_snd_filter (st : StreamState) (v : MistralChunk) :
    List.filter isTextOrFinish (applyMetadata st v).2 = [] := by
  unfold applyMetadata
  split <;> simp [isTextOrFinish]

lemma applyUsage_activeText (st : StreamState) (v : MistralChunk) :
    (applyUsage st v).activeText = st.activeText := by
  cases hv : v.usage <;> simp [applyUsage, hv]

lemma applyUsage_usage (st : StreamState) (v : MistralChunk) :
    (applyUsage st v).usage =
      (match v.usage with
       | some u => toNormalizedUsage u
       | none => st.usage) := by
  cases hv : v.usage <;> simp [applyUsage, hv, toNormalizedUsage]

lemma applyFinishReason_activeText (st : StreamState) (fr : Option String) :
    (applyFinishReason st fr).activeText = st.activeText := by
  cases fr <;> simp [applyFinishReason]

lemma applyFinishReason_usage (st : StreamState) (fr : Option String) :
    (applyFinishReason st fr).usage = st.usage := by
  cases fr <;> simp [applyFinishReason]

lemma applyText_spec (st : StreamState) (tc : Option String) :
    ((applyText st tc).1).activeText = (st.activeText || !((tc.getD "") == "")) ∧
    ((applyText st tc).1).usage = st.usage ∧
    (applyText st tc).2 =
      spanned st.activeText
        (if (tc.getD "") == "" then [] else [tc.getD ""]) := by
  cases tc with
  | none => simp [applyText, spanned]
  | some t =>
    by_cases hlen : 0 < t.length
    · have htne : t ≠ "" := (string_length_pos_iff t).mp hlen
      cases ha : st.activeText <;>
        simp [applyText, hlen, ha, spanned, htne]
    · have hte : t = "" := by
        by_contra hne
        exact hlen ((string_length_pos_iff t).mpr hne)
      subst hte
      simp [applyText, spanned]

lemma filter_raw_events (il : Bool) (r : String) :
    List.filter isTextOrFinish (if il then [StreamPart.raw r] else []) = [] := by
  cases il <;> simp [isTextOrFinish]

lemma transformChunk_failure (il : Bool) (st : StreamState) (e r : String) :
    transformChunk il st (.failure e r) =
      some (st, (if il then [StreamPart.raw r] else []) ++ [.error e]) := by
  rfl

lemma transformChunk_success_eq (il : Bool) (st : StreamState) (v : MistralChunk)
    (r : String) (choice : ChunkChoice) (rest : List ChunkChoice)
    (hch : v.choices = choice :: rest) :
    transformChunk il st (.success v r) =
      some
        (applyFinishReason
          (applyText (applyUsage (applyMetadata st v).1 v)
            (extractTextContent choice.delta.content)).1 choice.finish_reason,
         (if il then [StreamPart.raw r] else []) ++ (applyMetadata st v).2 ++
           (applyText (applyUsage (applyMetadata st v).1 v)
             (extractTextContent choice.delta.content)).2) := by
  unfold transformChunk
  simp only [rawOf, hch]

lemma spanned_append (a : Bool) (ds1 ds2 : List String) :
    spanned a (ds1 ++ ds2) = spanned a ds1 ++ spanned (a || !ds1.isEmpty) ds2 := by
  cases ds1 with
  | nil => simp [spanned]
  | cons d rest => cases a <;> simp [spanned]

lemma filter_spanned (a : Bool) (ds : List String) :
    List.filter isTextOrFinish (spanned a ds) = spanned a ds := by
  unfold spanned
  rw [List.filter_append]
  congr 1
  · split <;> simp [isTextOrFinish]
  · induction ds with
    | nil => rfl
    | cons d rest ih => simp [isTextOrFinish, ih]

lemma spanned_no_finish (a : Bool) (ds : List String) :
    ∀ x ∈ spanned a ds, isFinishPart x = false := by
  intro x hx
  unfold spanned at hx
  rcases List.mem_append.mp hx with h | h
  · split at h
    · simp at h
    · simp at h
      subst h
      rfl
  · obtain ⟨d, _, rfl⟩ := List.mem_map.mp h
    rfl

lemma deltaTexts_cons (c : ChunkParseResult) (cs : List ChunkParseResult) :
    deltaTexts (c :: cs) =
      (if extractedText c == "" then [] else [extractedText c]) ++ deltaTexts cs := by
  unfold deltaTexts
  cases hb : (extractedText c == "") <;> simp [List.filter_cons, hb]

lemma transformChunk_good_spec (il : Bool) (st : StreamState)
    (c : ChunkParseResult) (h : goodChunk c = true) :
    ∃ st' evs, transformChunk il st c = some (st', evs) ∧
      st'.activeText = (st.activeText || !(extractedText c == "")) ∧
      st'.usage = (match usageOf c with
        | some u => toNormalizedUsage u
        | none => st.usage) ∧
      List.filter isTextOrFinish evs =
        spanned st.activeText
          (if extractedText c == "" then [] else [extractedText c]) := by
  cases c with
  | failure e r =>
    refine ⟨st, _, transformChunk_failure il st e r, ?_, ?_, ?_⟩
    · simp [extractedText]
    · simp [usageOf]
    · simp [extractedText, spanned, List.filter_append, filter_raw_events,
        isTextOrFinish]
  | success v r =>
    have hch : ∃ choice rest, v.choices = choice :: rest := by
      cases hc : v.choices with
      | nil => simp [goodChunk, hc] at h
      | cons a b => exact ⟨a, b, rfl⟩
    obtain ⟨choice, rest, hch⟩ := hch
    have hext : extractedText (.success v r)
        = (extractTextContent choice.delta.content).getD "" := by
      simp [extractedText, hch]
    obtain ⟨hta, htu, hte⟩ := applyText_spec (applyUsage (applyMetadata st v).1 v)
      (extractTextContent choice.delta.content)
    refine ⟨_, _, transformChunk_success_eq il st v r choice rest hch, ?_, ?_, ?_⟩
    · rw [applyFinishReason_activeText, hta, applyUsage_activeText,
        applyMetadata_fst_activeText, hext]
    · rw [applyFinishReason_usage, htu, applyUsage_usage, applyMetadata_fst_usage]
      simp [usageOf]
    · rw [List.filter_append, List.filter_append, filter_raw_events,
        applyMetadata_snd_filter, hte, applyUsage_activeText,
        applyMetadata_fst_activeText, hext, filter_spanned]
      simp

lemma processChunks_spec (il : Bool) (chunks : List ChunkParseResult) :
    ∀ st : StreamState, (∀ c ∈ chunks, goodChunk c = true) →
    ∃ st' evs, processChunks il st chunks = some (st', evs) ∧
      st'.activeText = (st.activeText || !(deltaTexts chunks).isEmpty) ∧
      st'.usage = (match lastUsage chunks with
        | some u => toNormalizedUsage u
        | none => st.usage) ∧
      List.filter isTextOrFinish evs = spanned st.activeText (deltaTexts chunks) := by
  induction chunks with
  | nil =>
    intro st _
    exact ⟨st, [], rfl, by simp [deltaTexts], by simp [lastUsage],
      by simp [deltaTexts, spanned]⟩
  | cons c cs ih =>
    intro st h
    obtain ⟨st1, evs1, he1, ha1, hu1, hf1⟩ :=
      transformChunk_good_spec il st c (h c (by simp))
    obtain ⟨st2, evs2, he2, ha2, hu2, hf2⟩ :=
      ih st1 (fun x hx => h x (by simp [hx]))
    refine ⟨st2, evs1 ++ evs2, ?_, ?_, ?_, ?_⟩
    · simp [processChunks, he1, he2]
    · rw [ha2, ha1, deltaTexts_cons]
      cases hb : (extractedText c == "") <;>
        simp [hb, Bool.or_assoc]
    · rw [hu2, hu1]
      cases hl : lastUsage cs with
      | some u => simp [lastUsage, hl]
      | none => cases hc : usageOf c <;> simp [lastUsage, hl, hc]
    · rw [List.filter_append, hf1, hf2, ha1, deltaTexts_cons, spanned_append]
      cases hb : (extractedText c == "") <;> simp [hb]

lemma doStreamEvents_spec (il : Bool) (w : List CallWarning)
    (chunks : List ChunkParseResult) (h : ∀ c ∈ chunks, goodChunk c = true) :
    ∃ st' evs, processChunks il initialStreamState chunks = some (st', evs) ∧
      doStreamEvents il w chunks =
        some (.streamStart w :: (evs ++ flushEvents st')) ∧
      st'.activeText = !(deltaTexts chunks).isEmpty ∧
      st'.usage = finalUsage chunks ∧
      List.filter isTextOrFinish evs = spanned false (deltaTexts chunks) := by
  obtain ⟨st', evs, he, ha, hu, hf⟩ := processChunks_spec il chunks initialStreamState h
  refine ⟨st', evs, he, ?_, ?_, ?_, ?_⟩
  · simp [doStreamEvents, he]
  · simpa [initialStreamState] using ha
  · rw [hu]
    cases hl : lastUsage chunks <;> simp [finalUsage, hl, initialStreamState]
  · simpa [initialStreamState] using hf

lemma doGenerateContent_parts (l : List MistralContentPart) :
    doGenerateContent (some (.parts l)) =
      ((textParts l).filter (fun t => !(t == ""))).map ContentItem.text := by
  induction l with
  | nil => rfl
  | cons p rest ih =>
    cases p with
    | text t =>
      rcases eq_or_ne t "" with rfl | htne
      · have h0 : ¬ 0 < ("" : String).length := by decide
        simpa [doGenerateContent, textParts, List.filterMap_cons,
          List.filter_cons, h0] using ih
      · have h0 : 0 < t.length := (string_length_pos_iff t).mpr htne
        simpa [doGenerateContent, textParts, List.filterMap_cons,
          List.filter_cons, h0, htne] using ih
    | image_url u =>
      simpa [doGenerateContent, textParts, List.filterMap_cons] using ih
    | reference ids =>
      simpa [doGenerateContent, textParts, List.filterMap_cons] using ih
    | thinking parts =>
      simpa [doGenerateContent, textParts, List.filterMap_cons] using ih

lemma concatContent_map_text (ts : List String) :
    concatContent (ts.map ContentItem.text) = joinStrings ts := by
  induction ts with
  | nil => rfl
  | cons t rest ih =>
    simp only [concatContent, joinStrings, List.map_map, List.map_cons] at ih ⊢
    rw [ih]

lemma processChunks_append (il : Bool) (l1 l2 : List ChunkParseResult) :
    ∀ st : StreamState,
      processChunks il st (l1 ++ l2) =
        match processChunks il st l1 with
        | none => none
        | some (st1, evs1) =>
          match processChunks il st1 l2 with
          | none => none
          | some (st2, evs2) => some (st2, evs1 ++ evs2) := by
  induction l1 with
  | nil =>
    intro st
    cases hl2 : processChunks il st l2 with
    | none => simp [processChunks, hl2]
    | some p => cases p with
      | mk st2 evs2 => simp [processChunks, hl2]
  | cons c cs ih =>
    intro st
    rw [List.cons_append]
    simp only [processChunks]
    cases hc : transformChunk il st c with
    | none => rfl
    | some p =>
      obtain ⟨st1, evs1⟩ := p
      simp only [ih st1]
      cases hcs : processChunks il st1 cs with
      | none => rfl
      | some q =>
        obtain ⟨sta, evsa⟩ := q
        cases hl2 : processChunks il sta l2 with
        | none => simp [hl2]
        | some r =>
          obtain ⟨stb, evsb⟩ := r
          simp [hl2, List.append_assoc]

/-! ### Claim theorems -/

/-- C8, counterexample: content flattening applied to the empty plain
string returns the empty string itself (`typeof '' === 'string'` is true,
so `extractTextContent` returns it unchanged), not `undefined` as the
claim states. -/
theorem c8_empty_string_counterexample :
    extractTextContent (some (.str "")) = some "" := by
  rfl

/-- C8, amended: content flattening applied to a plain string input
returns that string unchanged, whether it is empty or not. -/
theorem c8_flatten_plain_string (s : String) :
    extractTextContent (some (.str s)) = some s := by
  rfl

/-- C9: for every content-union value, the concatenated text of the
synchronous parser's normalized content items equals the delta text the
streaming path would extract (and forward) for that same value. -/
theorem c9_sync_stream_extraction_agree (c : Option MistralContent) :
    concatContent (doGenerateContent c) = streamDeltaText c := by
  match c with
  | none => rfl
  | some (.str s) =>
    rcases eq_or_ne s "" with rfl | hs
    · rfl
    · have h0 : 0 < s.length := (string_length_pos_iff s).mpr hs
      simp [doGenerateContent, extractTextContent, streamDeltaText, h0,
        concatContent, joinStrings, String.append_empty]
  | some (.parts l) =>
    rw [doGenerateContent_parts, concatContent_map_text, joinStrings_filter_ne]
    unfold streamDeltaText extractTextContent
    cases htp : textParts l with
    | nil => simp [htp, joinStrings]
    | cons t rest =>
      simp only [htp, List.length_cons]
      rw [if_pos (Nat.succ_pos rest.length)]
      by_cases hj : 0 < (joinStrings (t :: rest)).length
      · simp [hj]
      · have hje : joinStrings (t :: rest) = "" := by
          by_contra hne
          exact hj ((string_length_pos_iff _).mpr hne)
        simp [hj, hje]

/-- The prompt of the C2 counterexample: the first user message holds
only a non-text (file) part, the second user message holds a text part. -/
def c2Prompt : List PromptMessage :=
  [{ role := "user", content := [.other "file"] },
   { role := "user", content := [.text "hi"] }]

/-- C2, counterexample: the first message with role `user` contains no
`text` part, so under the claim no prompt is taken from it — yet the
builder produces the prompt `"hi"` taken from the *second* user message,
because `extractUserPromptContent` falls through to later user messages. -/
theorem c2_first_user_message_counterexample :
    specFirstUserText c2Prompt = none ∧
    extractUserPromptContent c2Prompt = some "hi" ∧
    (getArgs "codestral-latest" { prompt := c2Prompt }).toOption.map
      (fun res => res.args.prompt) = some "hi" := by
  exact ⟨rfl, rfl, rfl⟩

/-- C2, amended: the Request Builder takes the wire prompt from the first
content part of type `text` inside the earliest user message containing
one (user messages without a text part are skipped); whenever that text
is non-empty, the wire request's prompt equals it exactly. -/
theorem c2_prompt_from_first_user_text (p : List PromptMessage)
    (modelId : String) (o : CallOptions) (t : String) (hp : o.prompt = p)
    (ht : firstUserText p = some t) (hne : t ≠ "") :
    extractUserPromptContent p = firstUserText p ∧
    ∃ res, getArgs modelId o = .ok res ∧ res.args.prompt = t := by
  refine ⟨extractUserPromptContent_eq_firstUserText p, ?_⟩
  have he : extractUserPromptContent o.prompt = some t := by
    rw [hp, extractUserPromptContent_eq_firstUserText p, ht]
  unfold getArgs
  rw [he]
  simp only [hne, if_false, reduceIte]
  exact ⟨_, rfl, rfl⟩

/-- Witness for the amended C2 at a concrete prompt. -/
theorem c2_prompt_from_first_user_text_witness :
    (([{ role := "user", content := [.text "Hello"] }] : List PromptMessage) =
      [{ role := "user", content := [.text "Hello"] }]) ∧
    firstUserText [{ role := "user", content := [.text "Hello"] }] = some "Hello" ∧
    ("Hello" : String) ≠ "" ∧
    (extractUserPromptContent [{ role := "user", content := [.text "Hello"] }] =
        firstUserText [{ role := "user", content := [.text "Hello"] }] ∧
      ∃ res, getArgs "codestral-latest"
          { prompt := [{ role := "user", content := [.text "Hello"] }] } = .ok res ∧
        res.args.prompt = "Hello") := by
  refine ⟨rfl, rfl, by decide, ?_⟩
  exact c2_prompt_from_first_user_text _ "codestral-latest" _ "Hello" rfl rfl (by decide)

/-- C3: when no message of the prompt is a user message with a `text`
content part, the builder fails with the `Empty prompt` error, and the
modelled `doGenerate` fails with that error whatever wire response the
transport could have delivered (no network interaction is consulted). -/
theorem c3_no_user_text_part_fails (modelId : String) (o : CallOptions)
    (h : hasUserTextPart o.prompt = false) :
    getArgs modelId o = .error "Empty prompt" ∧
    ∀ response : MistralResponse,
      doGenerateModel modelId o response = .error "Empty prompt" := by
  have he := extractUserPromptContent_eq_none_of_no_user_text o.prompt h
  have hg : getArgs modelId o = .error "Empty prompt" := by
    unfold getArgs
    rw [he]
  exact ⟨hg, fun response => by unfold doGenerateModel; rw [hg]⟩

/-- Witness for C3 at a concrete promptless call description. -/
theorem c3_no_user_text_part_fails_witness :
    hasUserTextPart ([] : List PromptMessage) = false ∧
    getArgs "codestral-latest" { prompt := [] } = .error "Empty prompt" ∧
    doGenerateModel "codestral-latest" { prompt := [] }
      { choices := []
        usage := { prompt_tokens := 0, completion_tokens := 0, total_tokens := 0 } } =
      .error "Empty prompt" := by
  refine ⟨rfl, ?_, ?_⟩
  · exact (c3_no_user_text_part_fails "codestral-latest" { prompt := [] } rfl).1
  · exact (c3_no_user_text_part_fails "codestral-latest" { prompt := [] } rfl).2 _

/-- The concrete wire response of C5. -/
def c5Response : MistralResponse :=
  { choices := [{ message := { content := some (.str "Hi") }
                  finish_reason := some "stop" }]
    usage := { prompt_tokens := 4, completion_tokens := 1, total_tokens := 5 } }

/-- C5: the synchronous parser normalizes the concrete response with
content `"Hi"`, usage 4/1/5 and finish reason `"stop"` to exactly one
text item `"Hi"`, finish reason `stop` and usage 4/1/5; and the parser
consults only `choices[0]` — the result is independent of any further
choices. -/
theorem c5_sync_example :
    parseResponse c5Response =
      some { content := [.text "Hi"]
             finishReason := .stop
             usage := { inputTokens := some 4, outputTokens := some 1, totalTokens := some 5 } } ∧
    ∀ (id : Option String) (created : Option Int) (model : Option String)
      (choice : ResponseChoice) (rest rest' : List ResponseChoice)
      (usage : MistralUsage),
      parseResponse { id := id
                      created := created
                      model := model
                      choices := choice :: rest
                      usage := usage } =
      parseResponse { id := id
                      created := created
                      model := model
                      choices := choice :: rest'
                      usage := usage } := by
  exact ⟨rfl, fun _ _ _ _ _ _ _ => rfl⟩

/-- C10: both envelope types admit an empty choices list, and on such an
envelope the unguarded `choices[0]` access makes the synchronous parser
produce no normalized result and the streaming transform produce no
per-chunk events (the transform fails instead of emitting them). -/
theorem c10_empty_choices_unguarded :
    (∀ (id : Option String) (created : Option Int) (model : Option String)
        (usage : MistralUsage),
      parseResponse { id := id
                      created := created
                      model := model
                      choices := []
                      usage := usage } = none) ∧
    (∀ (il : Bool) (st : StreamState) (v : MistralChunk) (r : String),
      v.choices = [] → transformChunk il st (.success v r) = none) := by
  refine ⟨fun _ _ _ _ => rfl, fun il st v r h => ?_⟩
  unfold transformChunk
  simp [h]

/-- Witness for C10 at concrete empty-choices envelopes. -/
theorem c10_empty_choices_unguarded_witness :
    parseResponse { choices := []
                    usage := { prompt_tokens := 4, completion_tokens := 1, total_tokens := 5 } } =
      none ∧
    transformChunk false initialStreamState
      (.success { choices := [] } "raw") = none := by
  exact ⟨c10_empty_choices_unguarded.1 none none none _,
    c10_empty_choices_unguarded.2 false initialStreamState { choices := [] } "raw" rfl⟩

/-- The call description with the seven FIM-unsupported generic settings
removed. -/
def clearSeven (o : CallOptions) : CallOptions :=
  { o with
    topK := none
    frequencyPenalty := none
    presencePenalty := none
    stopSequences := none
    responseFormat := none
    tools := none
    toolChoice := none }

lemma count_warning_ite (c : Bool) (x y : CallWarning) :
    List.count x (if c then [y] else []) = if c ∧ y = x then 1 else 0 := by
  cases c with
  | false => simp
  | true =>
    by_cases hxy : y = x
    · subst hxy
      simp
    · simp [hxy, List.count_eq_zero, Ne.symm hxy]

lemma getArgs_ok_inv {modelId : String} {o : CallOptions} {res : GetArgsResult}
    (h : getArgs modelId o = .ok res) :
    ∃ pfx, extractUserPromptContent o.prompt = some pfx ∧ pfx ≠ "" ∧
      res = { args := fimArgsFor modelId o pfx, warnings := fimWarnings o } := by
  unfold getArgs at h
  cases hE : extractUserPromptContent o.prompt with
  | none => rw [hE] at h; exact absurd h (by simp)
  | some pfx =>
    rw [hE] at h
    by_cases hp : pfx = ""
    · simp [hp] at h
    · simp only [if_neg hp] at h
      injection h with h'
      exact ⟨pfx, rfl, hp, h'.symm⟩

/-- C4: on every successful build, the warning list contains exactly one
unsupported-setting warning per supplied setting among top-k, frequency
penalty, presence penalty, stop sequences, response format, tools and
tool choice (and none when the setting is absent), and the assembled wire
request is exactly the one produced with all seven settings removed —
none of their values reaches the wire request. -/
theorem c4_unsupported_setting_warnings (modelId : String) (o : CallOptions)
    (res : GetArgsResult) (h : getArgs modelId o = .ok res) :
    (res.warnings.count (.unsupportedSetting "topK")
      = if o.topK.isSome then 1 else 0) ∧
    (res.warnings.count (.unsupportedSetting "frequencyPenalty")
      = if o.frequencyPenalty.isSome then 1 else 0) ∧
    (res.warnings.count (.unsupportedSetting "presencePenalty")
      = if o.presencePenalty.isSome then 1 else 0) ∧
    (res.warnings.count (.unsupportedSetting "stopSequences")
      = if o.stopSequences.isSome then 1 else 0) ∧
    (res.warnings.count (.unsupportedSetting "responseFormat")
      = if o.responseFormat.isSome then 1 else 0) ∧
    (res.warnings.count (.unsupportedSetting "tools")
      = if o.tools.isSome then 1 else 0) ∧
    (res.warnings.count (.unsupportedSetting "toolChoice")
      = if o.toolChoice.isSome then 1 else 0) ∧
    getArgs modelId (clearSeven o) = .ok { args := res.args, warnings := [] } := by
  obtain ⟨pfx, hE, hp, hres⟩ := getArgs_ok_inv h
  subst hres
  have hclear : getArgs modelId (clearSeven o) =
      .ok { args := fimArgsFor modelId o pfx, warnings := [] } := by
    have hE' : extractUserPromptContent (clearSeven o).prompt = some pfx := hE
    unfold getArgs
    rw [hE']
    simp only [if_neg hp]
    rfl
  refine ⟨?_, ?_, ?_, ?_, ?_, ?_, ?_, hclear⟩ <;>
    simp [fimWarnings, List.count_append, count_warning_ite]

/-- The call description of the C4 witness: only top-k supplied. -/
def c4Opts : CallOptions :=
  { prompt := [{ role := "user", content := [.text "Hello"] }]
    topK := some 1 }

def c4Res : GetArgsResult :=
  { args := fimArgsFor "codestral-latest" c4Opts "Hello"
    warnings := [.unsupportedSetting "topK"] }

/-- Witness for C4 at a concrete call description. -/
theorem c4_unsupported_setting_warnings_witness :
    getArgs "codestral-latest" c4Opts = .ok c4Res ∧
    ((c4Res.warnings.count (.unsupportedSetting "topK")
      = if c4Opts.topK.isSome then 1 else 0) ∧
    (c4Res.warnings.count (.unsupportedSetting "frequencyPenalty")
      = if c4Opts.frequencyPenalty.isSome then 1 else 0) ∧
    (c4Res.warnings.count (.unsupportedSetting "presencePenalty")
      = if c4Opts.presencePenalty.isSome then 1 else 0) ∧
    (c4Res.warnings.count (.unsupportedSetting "stopSequences")
      = if c4Opts.stopSequences.isSome then 1 else 0) ∧
    (c4Res.warnings.count (.unsupportedSetting "responseFormat")
      = if c4Opts.responseFormat.isSome then 1 else 0) ∧
    (c4Res.warnings.count (.unsupportedSetting "tools")
      = if c4Opts.tools.isSome then 1 else 0) ∧
    (c4Res.warnings.count (.unsupportedSetting "toolChoice")
      = if c4Opts.toolChoice.isSome then 1 else 0) ∧
    getArgs "codestral-latest" (clearSeven c4Opts) =
      .ok { args := c4Res.args, warnings := [] }) := by
  exact ⟨rfl, c4_unsupported_setting_warnings "codestral-latest" c4Opts c4Res rfl⟩

/-- C1: for a stream of successfully parsed delta chunks whose extracted
texts concatenate to a non-empty `S`, the normalized event sequence holds
exactly one text-start with span id `"0"`, then one or more text-delta
events with span id `"0"` whose deltas concatenate to `S`, then exactly
one text-end, then exactly one finish event — in that order (witnessed by
the subsequence of text/finish events). -/
theorem c1_streaming_single_text_span (il : Bool) (w : List CallWarning)
    (chunks : List ChunkParseResult) (S : String)
    (hall : ∀ c ∈ chunks, successWithChoice c = true)
    (hS : concatTexts chunks = S) (hne : S ≠ "") :
    ∃ evs ds fr u, doStreamEvents il w chunks = some evs ∧
      ds ≠ [] ∧ joinStrings ds = S ∧
      List.filter isTextOrFinish evs =
        .textStart "0" :: ((ds.map fun d => .textDelta "0" d) ++
          [.textEnd "0", .finish fr u]) := by
  have hgood : ∀ c ∈ chunks, goodChunk c = true := by
    intro c hc
    have := hall c hc
    cases c <;> simp_all [successWithChoice, goodChunk]
  obtain ⟨st', evs, hproc, hdo, hact, husage, hfil⟩ :=
    doStreamEvents_spec il w chunks hgood
  have hjoin : joinStrings (deltaTexts chunks) = S := by
    rw [← hS]
    unfold concatTexts deltaTexts
    exact joinStrings_filter_ne _
  have hds : deltaTexts chunks ≠ [] := by
    intro h0
    apply hne
    rw [← hjoin, h0]
    rfl
  have hactT : st'.activeText = true := by
    rw [hact]
    cases hd : deltaTexts chunks with
    | nil => exact absurd hd hds
    | cons a b => rfl
  have hflush : flushEvents st' =
      [.textEnd "0", .finish st'.finishReason st'.usage] := by
    simp [flushEvents, hactT]
  have hempty : (deltaTexts chunks).isEmpty = false := by
    cases hd : deltaTexts chunks with
    | nil => exact absurd hd hds
    | cons a b => rfl
  refine ⟨_, deltaTexts chunks, st'.finishReason, st'.usage, hdo, hds, hjoin, ?_⟩
  rw [hflush]
  simp [List.filter_cons, List.filter_append, hfil, isTextOrFinish,
    spanned, hempty]

/-- Witness chunks for C1: `"Hello"` split as `"Hel"` + `"lo"`. -/
def c1Chunks : List ChunkParseResult :=
  [.success { choices := [{ delta := { content := some (.str "Hel") } }] } "r1",
   .success { choices := [{ delta := { content := some (.parts [.text "lo"]) } }] } "r2"]

/-- Witness for C1 at a concrete two-chunk stream. -/
theorem c1_streaming_single_text_span_witness :
    (∀ c ∈ c1Chunks, successWithChoice c = true) ∧
    concatTexts c1Chunks = "Hello" ∧
    ("Hello" : String) ≠ "" ∧
    (∃ evs ds fr u, doStreamEvents false [] c1Chunks = some evs ∧
      ds ≠ [] ∧ joinStrings ds = "Hello" ∧
      List.filter isTextOrFinish evs =
        .textStart "0" :: ((ds.map fun d => .textDelta "0" d) ++
          [.textEnd "0", .finish fr u])) := by
  refine ⟨by decide, by decide, by decide, ?_⟩
  exact c1_streaming_single_text_span false [] c1Chunks "Hello"
    (by decide) (by decide) (by decide)

/-- C6: every good stream terminates in a single finish event, and the
usage it carries is the last usage record seen on any chunk (each usage
record overwrites all three counters, so later records win); with no
usage record on any chunk all three counters stay undefined
(`finalUsage`). -/
theorem c6_finish_carries_last_usage (il : Bool) (w : List CallWarning)
    (chunks : List ChunkParseResult)
    (h : ∀ c ∈ chunks, goodChunk c = true) :
    ∃ evs pre fr, doStreamEvents il w chunks = some evs ∧
      evs = pre ++ [.finish fr (finalUsage chunks)] ∧
      ∀ e ∈ pre, isFinishPart e = false := by
  obtain ⟨st', evs, hproc, hdo, hact, husage, hfil⟩ :=
    doStreamEvents_spec il w chunks h
  refine ⟨_, .streamStart w ::
      (evs ++ (if st'.activeText then [StreamPart.textEnd "0"] else [])),
    st'.finishReason, hdo, ?_, ?_⟩
  · rw [← husage]
    simp [flushEvents, List.append_assoc]
  · intro e he
    rcases List.mem_cons.mp he with rfl | he2
    · rfl
    rcases List.mem_append.mp he2 with hin | hin
    · cases hfe : isFinishPart e with
      | false => rfl
      | true =>
        exfalso
        have hTF : isTextOrFinish e = true := by
          cases e <;> simp_all [isFinishPart, isTextOrFinish]
        have hmem : e ∈ List.filter isTextOrFinish evs :=
          List.mem_filter.mpr ⟨hin, hTF⟩
        rw [hfil] at hmem
        have := spanned_no_finish false (deltaTexts chunks) e hmem
        simp [hfe] at this
    · cases hA : st'.activeText with
      | false =>
        rw [hA] at hin
        simp at hin
      | true =>
        rw [hA] at hin
        simp at hin
        subst hin
        rfl

/-- Witness chunks for C6: one chunk carrying a usage record. -/
def c6Chunks : List ChunkParseResult :=
  [.success { choices := [{ delta := { content := none } }]
              usage := some { prompt_tokens := 7
                              completion_tokens := 8
                              total_tokens := 9 } } "r"]

/-- Witness for C6 at a concrete one-chunk stream. -/
theorem c6_finish_carries_last_usage_witness :
    (∀ c ∈ c6Chunks, goodChunk c = true) ∧
    (∃ evs pre fr, doStreamEvents false [] c6Chunks = some evs ∧
      evs = pre ++ [.finish fr (finalUsage c6Chunks)] ∧
      ∀ e ∈ pre, isFinishPart e = false) := by
  exact ⟨by decide, c6_finish_carries_last_usage false [] c6Chunks (by decide)⟩

/-- C7: a chunk that fails to parse contributes exactly its raw event
(when raw passthrough is requested) followed by one error event, with the
transform state untouched — the remaining chunks are processed from the
same state — and the stream still ends with the single finish event. -/
theorem c7_parse_failure_isolated (il : Bool) (w : List CallWarning)
    (e r : String) (pre post : List ChunkParseResult)
    (h : ∀ c ∈ pre ++ post, goodChunk c = true) :
    (∀ st : StreamState, transformChunk il st (.failure e r) =
      some (st, (if il then [StreamPart.raw r] else []) ++ [.error e])) ∧
    ∃ stPre evsPre stPost evsPost,
      processChunks il initialStreamState pre = some (stPre, evsPre) ∧
      processChunks il stPre post = some (stPost, evsPost) ∧
      doStreamEvents il w (pre ++ .failure e r :: post) =
        some ((.streamStart w ::
          (evsPre ++ ((if il then [StreamPart.raw r] else []) ++ [.error e]) ++
            evsPost ++
            (if stPost.activeText then [StreamPart.textEnd "0"] else []))) ++
          [.finish stPost.finishReason stPost.usage]) := by
  have hpre : ∀ c ∈ pre, goodChunk c = true :=
    fun c hc => h c (List.mem_append.mpr (Or.inl hc))
  have hpost : ∀ c ∈ post, goodChunk c = true :=
    fun c hc => h c (List.mem_append.mpr (Or.inr hc))
  obtain ⟨st1, evs1, he1, -, -, -⟩ := processChunks_spec il pre initialStreamState hpre
  obtain ⟨st2, evs2, he2, -, -, -⟩ := processChunks_spec il post st1 hpost
  have hmid : processChunks il st1 (.failure e r :: post) =
      some (st2, ((if il then [StreamPart.raw r] else []) ++ [.error e]) ++ evs2) := by
    simp [processChunks, transformChunk_failure, he2]
  have hcomp : processChunks il initialStreamState (pre ++ .failure e r :: post) =
      some (st2, evs1 ++
        (((if il then [StreamPart.raw r] else []) ++ [.error e]) ++ evs2)) := by
    rw [processChunks_append il pre _ initialStreamState]
    simp only [he1, hmid]
  refine ⟨fun st => transformChunk_failure il st e r,
    st1, evs1, st2, evs2, he1, he2, ?_⟩
  simp [doStreamEvents, hcomp, flushEvents, List.append_assoc]

/-- Witness for C7 at a concrete stream of one failing chunk. -/
theorem c7_parse_failure_isolated_witness :
    (∀ c ∈ ([] ++ [] : List ChunkParseResult), goodChunk c = true) ∧
    ((∀ st : StreamState, transformChunk false st (.failure "bad" "raw") =
      some (st, (if false then [StreamPart.raw "raw"] else []) ++ [.error "bad"])) ∧
    ∃ stPre evsPre stPost evsPost,
      processChunks false initialStreamState [] = some (stPre, evsPre) ∧
      processChunks false stPre [] = some (stPost, evsPost) ∧
      doStreamEvents false [] ([] ++ .failure "bad" "raw" :: []) =
        some ((.streamStart [] ::
          (evsPre ++ ((if false then [StreamPart.raw "raw"] else []) ++ [.error "bad"]) ++
            evsPost ++
            (if stPost.activeText then [StreamPart.textEnd "0"] else []))) ++
          [.finish stPost.finishReason stPost.usage])) := by
  exact ⟨by decide, c7_parse_failure_isolated false [] "bad" "raw" [] [] (by decide)⟩

end MistralFim
